import Mathlib

/-!
Verification development for the log-routing and transformation engine of the
siem-optimization-toolkit repository (`src/python/log_router/`).

The Python sources are shallowly embedded: log records (Python nested dicts)
become an inductive JSON-like value type, the router's dot-path helpers,
rule matching, transformation pipeline, enrichment, retry dispatch, the
aggregate transformation and the monitoring anomaly report become executable
Lean functions, and the behaviour claimed in the specification is proved (or
refuted) about those functions.

Where the Python source only declares a stub ("... is a stub and not yet
implemented"), the corresponding definition is modelled from the
specification text instead; every such definition carries a doc comment
starting with "Modelled from the spec:".
-/

namespace LogRouterSpec

/-! ## Records

A log record is an arbitrarily nested string-keyed mapping (Python `dict`),
whose values are strings, numbers, booleans, `None`, nested mappings, or
lists.  Python `float` values are modelled as rationals.  `Fields` is the
insertion-ordered list of key/value bindings of one mapping (Python dicts
preserve insertion order and have unique keys). -/

mutual

inductive Value where
  | str (s : String)
  | num (q : ℚ)
  | vbool (b : Bool)
  | null
  | obj (fields : Fields)
  | arr (elems : Elems)
  deriving DecidableEq

inductive Fields where
  | nil
  | cons (key : String) (val : Value) (rest : Fields)
  deriving DecidableEq

inductive Elems where
  | nil
  | cons (val : Value) (rest : Elems)
  deriving DecidableEq

end

/-- Conversion of a plain list of values into the `Elems` spine of a JSON list. -/
def listToElems : List Value → Elems
  | [] => .nil
  | v :: vs => .cons v (listToElems vs)

/-- Lookup of a key in a mapping (Python `part in current` / `current[part]`).
Returns the first binding; Python dict keys are unique so this is the binding. -/
def Fields.getKey : Fields → String → Option Value
  | .nil, _ => none
  | .cons k v r, key => if k = key then some v else r.getKey key

/-- Assignment `d[key] = val` on a mapping: an existing binding is replaced in
place (Python dicts keep the original insertion position), a new key is
appended at the end. -/
def Fields.setKey : Fields → String → Value → Fields
  | .nil, key, val => .cons key val .nil
  | .cons k v r, key, val =>
      if k = key then .cons k val r else .cons k v (r.setKey key val)

/-- Removal `d.pop(key, None)` of a binding.  Python dict keys are unique, so
removing "the" binding of `key` is modelled as dropping every binding of
`key`. -/
def Fields.popKey : Fields → String → Fields
  | .nil, _ => .nil
  | .cons k v r, key => if k = key then r.popKey key else .cons k v (r.popKey key)

/-- Embedding of `EnhancedLogRouter._get_nested_value` (enhanced_router.py,
lines 460-474), generalised to a value under traversal: walk the dot-path
parts; a part is resolved only when the current value is a mapping containing
it, otherwise the traversal yields `none`. -/
def getNestedVal : Value → List String → Option Value
  | v, [] => some v
  | .obj fs, p :: ps =>
      match fs.getKey p with
      | some v => getNestedVal v ps
      | none => none
  | _, _ :: _ => none

/-- Splitting a dot path into its parts, Python `path.split('.')` (e.g.
`"a.b"` to `["a", "b"]`, `""` to `[""]`).  Implemented on the character
list so that it evaluates by kernel reduction. -/
def splitDotChars : List Char → List (List Char)
  | [] => [[]]
  | c :: cs =>
      let rest := splitDotChars cs
      if c = '.' then [] :: rest
      else
        match rest with
        | r :: rs => (c :: r) :: rs
        | [] => [[c]]

/-- String-level form of `splitDotChars`. -/
def pathParts (s : String) : List String :=
  (splitDotChars s.toList).map (fun cs => String.mk cs)

/-- Python `'.' in field_name`. -/
def containsDot (s : String) : Bool :=
  s.toList.any (fun c => c = '.')

/-- Result of `_get_nested_value` as its Python callers observe it: the
function returns `None` both for an unresolvable path and for a stored
`None` value, and every caller tests the result with `is not None`, so a
resolved `null` is collapsed to `none`. -/
def getNested (o : Fields) (path : List String) : Option Value :=
  match getNestedVal (.obj o) path with
  | some .null => none
  | r => r

/-- String-path form of `getNested`: the source splits the path on `'.'`
(`path.split('.')`). -/
def getNestedS (o : Fields) (path : String) : Option Value :=
  getNested o (pathParts path)

/-- Embedding of `EnhancedLogRouter._set_nested_value` (enhanced_router.py,
lines 476-486): for every part except the last, a missing binding or one
holding a non-mapping value is replaced by a fresh empty mapping
(`if part not in current or not isinstance(current[part], dict):
current[part] = {}`), then the final key is assigned. -/
def setNestedVal (o : Fields) : List String → Value → Fields
  | [], _ => o
  | [p], v => o.setKey p v
  | p :: p' :: ps, v =>
      let child : Fields :=
        match o.getKey p with
        | some (.obj fs) => fs
        | _ => .nil
      o.setKey p (.obj (setNestedVal child (p' :: ps) v))

/-- String-path form of `setNestedVal` (the source splits on `'.'`). -/
def setNestedS (o : Fields) (path : String) (v : Value) : Fields :=
  setNestedVal o (pathParts path) v

/-- Modelled from the spec: `EnhancedLogRouter._remove_nested_field`
(enhanced_router.py, lines 488-499) is a stub in the source ("is a stub and
not yet implemented"); spec §4.3 defines `rename` as "moves a value from one
path to another, removing the original path".  Walk to the parent mapping of
the dot path; if an intermediate segment is missing or holds a non-mapping
value the record is left unchanged; otherwise the final key is dropped. -/
def removeNested (o : Fields) : List String → Fields
  | [] => o
  | [p] => o.popKey p
  | p :: p' :: ps =>
      match o.getKey p with
      | some (.obj fs) => o.setKey p (.obj (removeNested fs (p' :: ps)))
      | _ => o

/-- String-path form of `removeNested` (the source splits on `'.'`). -/
def removeNestedS (o : Fields) (path : String) : Fields :=
  removeNested o (pathParts path)

/-! ## Rules and conditions

`RoutingRule` mirrors the dataclass of enhanced_router.py (lines 17-44); the
runtime-mutable `performance_metrics` counters take part in no claim and are
omitted.  A `Condition` models one entry of `rule.conditions`: the source
reads the dict keys `field`, `operator` and `value`; `value` may be absent
from the dict (its access then raises `KeyError`), hence an `Option`. -/

structure Condition where
  cfield : String
  operator : String
  value : Option Value
  deriving DecidableEq

structure TransformStep where
  ttype : String
  params : Fields
  deriving DecidableEq

structure RoutingRule where
  name : String
  conditions : List Condition
  transformations : List TransformStep
  destination : Fields
  priority : Int
  enabled : Bool
  metadata : Fields
  deriving DecidableEq

/-- Type of one pluggable operator handler: it receives the resolved field
value and the condition's comparison value and may raise. -/
def CondHandler : Type := Option Value → Value → Except String Bool

/-- Modelled from the spec: `EnhancedLogRouter._apply_condition`
(enhanced_router.py, lines 264-267) is a stub in the source ("is a stub and
not yet implemented").  Spec §4.1: the operator set is pluggable ("exact
operator set is pluggable", §3), a recognised operator dispatches to its
handler, and an unknown operator "fails closed (returns false) and is
reported as a configuration warning, never raised to the caller". -/
def applyCondition (ops : String → Option CondHandler) (fieldValue : Option Value)
    (op : String) (condValue : Value) : Except String Bool :=
  match ops op with
  | some h => h fieldValue condValue
  | none => .ok false

/-- Body of one iteration of `EnhancedLogRouter._evaluate_conditions`
(enhanced_router.py, lines 228-247) before its `except` clause: resolve the
condition's field by dot notation, then apply the operator; a missing
`value` key raises `KeyError` at the call. -/
def evalConditionRaw (ops : String → Option CondHandler) (log : Fields)
    (c : Condition) : Except String Bool :=
  let fieldValue := getNestedS log c.cfield
  match c.value with
  | none => .error "KeyError: value"
  | some cv => applyCondition ops fieldValue c.operator cv

/-- Embedding of `EnhancedLogRouter._evaluate_conditions` (enhanced_router.py,
lines 228-247): conditions are AND-combined with short-circuit; an exception
inside one condition's evaluation is caught and makes the whole rule
evaluation return `False`. -/
def evaluateConditions (ops : String → Option CondHandler) (log : Fields) :
    List Condition → Bool
  | [] => true
  | c :: cs =>
      match evalConditionRaw ops log c with
      | .ok true => evaluateConditions ops log cs
      | _ => false

/-- Embedding of `EnhancedLogRouter._find_matching_rule` (enhanced_router.py,
lines 213-226): iterate the loaded rules in order, skip disabled rules,
return the first whose conditions evaluate true.  The source's per-rule
`except` branch is unreachable here because `evaluateConditions` already
catches every per-condition exception. -/
def findMatchingRule (ops : String → Option CondHandler)
    (rules : List RoutingRule) (log : Fields) : Option RoutingRule :=
  match rules with
  | [] => none
  | r :: rs =>
      if r.enabled then
        if evaluateConditions ops log r.conditions then some r
        else findMatchingRule ops rs log
      else findMatchingRule ops rs log

/-- Embedding of the sorting step of `EnhancedLogRouter._load_rules`
(enhanced_router.py, lines 120-133): `self.rules.sort(key=lambda x:
x.priority)`.  Python's `list.sort` is a stable sort by the key; it is
modelled by the (stable) merge sort on the priority comparison.  The
per-rule validation `try` of `_load_rules` drops no rule because
`_validate_rule` is a stub that accepts everything. -/
def loadRules (rules : List RoutingRule) : List RoutingRule :=
  rules.mergeSort (fun a b => decide (a.priority ≤ b.priority))

/-! ## Transformation pipeline and enrichment -/

/-- Type of a registered transformation function: it receives the working
record and the step parameters and may raise.  (The source also passes the
`TransformationContext`; none of the claims' transformers consult it.) -/
def Transformer : Type := Fields → TransformStep → Except String Fields

/-- Embedding of `EnhancedLogRouter._apply_transformations`
(enhanced_router.py, lines 269-284): iterate the rule's steps in order; a
step whose type has no registered transformer is skipped; a step whose
transformer raises is caught and skipped, the working record keeping its
previous value. -/
def applyTransformations (registry : String → Option Transformer)
    (steps : List TransformStep) (log : Fields) : Fields :=
  match steps with
  | [] => log
  | step :: rest =>
      let next :=
        match registry step.ttype with
        | some t =>
            match t log step with
            | .ok l => l
            | .error _ => log
        | none => log
      applyTransformations registry rest next

/-- Embedding of `EnhancedLogRouter._enrich_log` (enhanced_router.py, lines
316-335): unconditionally attach `_metadata` with the matched rule's name, a
processing timestamp (passed in for `datetime.utcnow().isoformat()`) and the
list `[t['type'] for t in rule.transformations]`, then copy the rule
metadata's `compliance` and `classification` entries when present. -/
def enrichLog (log : Fields) (rule : RoutingRule) (now : String) : Fields :=
  let md : Fields :=
    ((Fields.nil.setKey "route_name" (.str rule.name)).setKey
        "routing_time" (.str now)).setKey
      "transformations_applied"
      (.arr (listToElems (rule.transformations.map (fun t => .str t.ttype))))
  let md :=
    match rule.metadata.getKey "compliance" with
    | some v => md.setKey "compliance" v
    | none => md
  let md :=
    match rule.metadata.getKey "classification" with
    | some v => md.setKey "classification" v
    | none => md
  log.setKey "_metadata" (.obj md)

/-- Embedding of `EnhancedLogRouter._transform_field_rename`
(enhanced_router.py, lines 379-401): for a dotted source path, move the
resolved value (when not `None`) to the target path and remove the source
path; for a top-level name, `result[new_field] = result.pop(old_field)` when
the key is present. -/
def transformFieldRename (log : Fields) (oldField newField : String) : Fields :=
  let result := log
  if containsDot oldField then
    match getNestedS result oldField with
    | some v => removeNestedS (setNestedS result newField v) oldField
    | none => result
  else
    match result.getKey oldField with
    | some v => (result.popKey oldField).setKey newField v
    | none => result

/-! ## Orchestrator

`route_logs` (enhanced_router.py, lines 135-181) launches one task per record
(`_process_log`, lines 183-211), awaits them all, and collects the non-`None`
results into a `defaultdict(list)` keyed by destination type.  The task body
is abstracted as a fallible function so that the orchestrator's
error-isolation policy can be stated for any behaviour of the match /
transform / enrich steps; `processLogBody` below is the concrete body. -/

/-- Embedding of `_process_log`'s `try`/`except` envelope: any exception
raised by the body is caught inside the record's task and turned into `None`
(the record is dropped). -/
def processLogWith (body : Fields → Except String (Option (Value × Fields)))
    (log : Fields) : Option (Value × Fields) :=
  match body log with
  | .ok r => r
  | .error _ => none

/-- Concrete body of `_process_log` (enhanced_router.py, lines 183-211):
find the matching rule (`None` result when no rule matches), apply the
transformation chain, enrich, and pair the result with
`rule.destination['type']` (whose absence raises `KeyError`). -/
def processLogBody (ops : String → Option CondHandler)
    (registry : String → Option Transformer) (now : String)
    (rules : List RoutingRule) (log : Fields) :
    Except String (Option (Value × Fields)) :=
  match findMatchingRule ops rules log with
  | none => .ok none
  | some rule =>
      let transformed := applyTransformations registry rule.transformations log
      let enriched := enrichLog transformed rule now
      match rule.destination.getKey "type" with
      | some d => .ok (some (d, enriched))
      | none => .error "KeyError: type"

/-- One `routed_logs[destination].append(processed_log)` on the
`defaultdict(list)`: append to the destination's bucket, creating it at the
end of the mapping when absent (Python dict insertion order). -/
def appendDest (m : List (Value × List Fields)) (d : Value) (l : Fields) :
    List (Value × List Fields) :=
  match m with
  | [] => [(d, [l])]
  | (k, ls) :: rest =>
      if k = d then (k, ls ++ [l]) :: rest else (k, ls) :: appendDest rest d l

/-- Bucket of a destination in the returned mapping (empty when absent, as
`defaultdict(list)` reads give `[]`). -/
def lookupDest (m : List (Value × List Fields)) (d : Value) : List Fields :=
  match m with
  | [] => []
  | (k, ls) :: rest => if k = d then ls else lookupDest rest d

/-- The result-collection loop of `route_logs` (lines 169-176): fold the
per-record task results in input order into the destination mapping.  The
loop's own `try`/`except` never fires because every task already caught its
exceptions. -/
def routeFold (body : Fields → Except String (Option (Value × Fields)))
    (m : List (Value × List Fields)) : List Fields → List (Value × List Fields)
  | [] => m
  | log :: rest =>
      routeFold body
        (match processLogWith body log with
         | some (d, pl) => appendDest m d pl
         | none => m) rest

/-- Embedding of `route_logs` (enhanced_router.py, lines 135-181): the
returned mapping of destination type to processed records.  (The final
dispatch `_send_to_destinations` is modelled separately below and does not
change the returned mapping.) -/
def routeLogs (body : Fields → Except String (Option (Value × Fields)))
    (logs : List Fields) : List (Value × List Fields) :=
  routeFold body [] logs

/-! ## Destination dispatch with retry -/

/-- Outcome of one `_send_with_retry` call: how many times the sink was
invoked, whether a send succeeded, the backoff sleeps performed in order,
and—in the permanent-failure case—the retries figure printed by
`"Failed to send logs after {max_retries} retries"`. -/
structure SendOutcome where
  attempts : Nat
  delivered : Bool
  waits : List ℚ
  reported : Option Nat
  deriving DecidableEq

/-- Embedding of the `while retry_count < max_retries` loop of
`_send_with_retry` (enhanced_router.py, lines 294-314).  `outcome k` tells
whether the k-th invocation (0-based) of `await sender(logs)` succeeds;
`rc` is the current `retry_count` and `fuel` maintains `fuel = maxRetries -
rc`, so `0 < fuel` is exactly the loop guard.  On failure `retry_count` is
incremented; reaching `max_retries` logs the permanent failure and breaks;
otherwise the loop sleeps `backoff_factor ** retry_count` and retries. -/
def sendRetryLoop (outcome : Nat → Bool) (maxRetries : Nat) (backoff : ℚ) :
    Nat → Nat → SendOutcome
  | rc, 0 => ⟨rc, false, [], none⟩
  | rc, fuel + 1 =>
      if outcome rc then ⟨rc + 1, true, [], none⟩
      else if rc + 1 = maxRetries then ⟨rc + 1, false, [], some maxRetries⟩
      else
        let rest := sendRetryLoop outcome maxRetries backoff (rc + 1) fuel
        ⟨rest.attempts, rest.delivered, backoff ^ (rc + 1) :: rest.waits,
          rest.reported⟩

/-- Default `max_retries` of `_send_with_retry`. -/
def defaultMaxRetries : Nat := 3

/-- Default `backoff_factor` of `_send_with_retry` (1.5). -/
def defaultBackoffFactor : ℚ := 3 / 2

/-- Embedding of `_send_with_retry` (enhanced_router.py, lines 294-314). -/
def sendWithRetry (outcome : Nat → Bool) (maxRetries : Nat) (backoff : ℚ) :
    SendOutcome :=
  sendRetryLoop outcome maxRetries backoff 0 maxRetries

/-- Embedding of `_send_to_destinations` (enhanced_router.py, lines 286-292):
for every destination of the batch mapping that has a registered sink, run
the retry wrapper (with its default parameters) on that destination's
records; destinations without a sink are dropped.  A sink is abstracted by
the per-attempt success predicate of its batch.  The tasks run concurrently
in the source; each one's exceptions are swallowed inside `sendWithRetry`,
so the outcomes are independent and order is immaterial. -/
def sendToDestinations (senders : Value → Option (List Fields → Nat → Bool))
    (batches : List (Value × List Fields)) : List (Value × SendOutcome) :=
  batches.filterMap (fun b =>
    match senders b.1 with
    | some s =>
        some (b.1, sendWithRetry (s b.2) defaultMaxRetries defaultBackoffFactor)
    | none => none)

/-! ## The combine/aggregate transformation

`AdvancedTransformations.transform_field_aggregate` (transformations.py,
lines 247-311).  Its numeric branches build `[float(v) for v in values]`
inside a single `try` whose `except ValueError` abandons the whole
aggregation; a `TypeError` from `float` (mapping, list or `None` operand) is
not caught there and propagates out of the step. -/

/-- Python exception kinds distinguished by `float(v)`. -/
inductive PyErr where
  | valueError
  | typeError
  deriving DecidableEq

/-- Numeric value of a digit string (caller guarantees all digits). -/
def digitsToNat (cs : List Char) : Nat :=
  cs.foldl (fun a c => 10 * a + (c.toNat - 48)) 0

/-- Parsing of a plain decimal literal, the core of Python `float(str)`:
optional sign, integer digits, optional fractional digits, at least one
digit overall.  (Python additionally accepts exponents, `inf`/`nan` and
surrounding whitespace; no claim exercises those forms.) -/
def parseDecimal? (s : String) : Option ℚ :=
  let core : List Char → Option ℚ := fun ds =>
    let ip := ds.takeWhile (fun c => c ≠ '.')
    match ds.dropWhile (fun c => c ≠ '.') with
    | [] =>
        if ip ≠ [] ∧ ip.all Char.isDigit then some (digitsToNat ip) else none
    | '.' :: fp =>
        if ip.all Char.isDigit ∧ fp.all Char.isDigit ∧ (ip ≠ [] ∨ fp ≠ []) then
          some ((digitsToNat ip : ℚ) + (digitsToNat fp : ℚ) / (10 : ℚ) ^ fp.length)
        else none
    | _ => none
  match s.toList with
  | '-' :: rest => (core rest).map (fun q => -q)
  | '+' :: rest => core rest
  | rest => core rest

/-- Behaviour of Python `float(v)` on a record value: numbers pass through,
booleans coerce to 1/0, strings are parsed (failure raises `ValueError`),
and any other type raises `TypeError`. -/
def pyFloat : Value → Except PyErr ℚ
  | .num q => .ok q
  | .vbool b => .ok (if b then 1 else 0)
  | .str s =>
      match parseDecimal? s with
      | some q => .ok q
      | none => .error .valueError
  | _ => .error .typeError

/-- The comprehension `[float(v) for v in values]`: left to right, first
exception wins. -/
def coerceFloats : List Value → Except PyErr (List ℚ)
  | [] => .ok []
  | v :: vs =>
      match pyFloat v with
      | .ok q =>
          match coerceFloats vs with
          | .ok qs => .ok (q :: qs)
          | .error e => .error e
      | .error e => .error e

/-- Rendering `str(v)` used by the `concat` branch (mapping/list rendering is
abbreviated; no claim depends on it). -/
def pyStr : Value → String
  | .str s => s
  | .num q => toString q
  | .vbool b => if b then "True" else "False"
  | .null => "None"
  | .obj _ => "dict"
  | .arr _ => "list"

/-- Modelled from the spec (helper only):
`AdvancedTransformations._get_nested_value` (transformations.py, lines
53-56) is a stub in the source; spec §3 gives the dot-path semantics
("Dot-separated paths address nested fields; a path segment that does not
resolve to a mapping during traversal yields absent"), which is exactly the
behaviour of `EnhancedLogRouter._get_nested_value` embedded above, so the
same `getNested` is used here; likewise `_set_nested_value` (lines 58-61)
is the `setNestedVal` above. -/
def transformFieldAggregate (log : Fields) (sourceFields : List (List String))
    (targetField : Option (List String)) (operation : String)
    (separator : String) : Except PyErr Fields :=
  let result := log
  match targetField with
  | none => .ok result
  | some target =>
      if sourceFields.isEmpty then .ok result
      else
        let values := sourceFields.filterMap (fun f => getNested result f)
        let aggregated : Except PyErr (Option Value) :=
          if values.isEmpty then .ok none
          else if operation = "concat" then
            .ok (some (.str (String.intercalate separator (values.map pyStr))))
          else if operation = "sum" then
            match coerceFloats values with
            | .ok qs => .ok (some (.num (qs.foldl (· + ·) 0)))
            | .error .valueError => .ok none
            | .error .typeError => .error .typeError
          else if operation = "avg" then
            match coerceFloats values with
            | .ok qs => .ok (some (.num ((qs.foldl (· + ·) 0) / (qs.length : ℚ))))
            | .error .valueError => .ok none
            | .error .typeError => .error .typeError
          else .ok none
        match aggregated with
        | .ok (some v) => .ok (setNestedVal result target v)
        | .ok none => .ok result
        | .error e => .error e

/-! ## Monitoring: performance report anomalies

`RouterMonitoring` (monitoring.py).  `record_metrics` (lines 76-111) appends
one event per processed log; `generate_performance_report` (lines 113-184)
filters events to the trailing window and includes
`_detect_anomalies` (lines 186-217) in the report.  Timestamps and
durations are rationals. -/

structure MetricEvent where
  timestamp : ℚ
  ruleName : String
  destination : String
  processingTime : ℚ
  success : Bool
  deriving DecidableEq

/-- Embedding of `record_metrics`' append to `self.performance_data`. -/
def recordMetrics (data : List MetricEvent) (e : MetricEvent) :
    List MetricEvent :=
  data ++ [e]

/-- The window filter `df = df[df['timestamp'] > datetime.utcnow() -
time_window]` of `generate_performance_report`. -/
def windowEvents (data : List MetricEvent) (now window : ℚ) :
    List MetricEvent :=
  data.filter (fun e => now - window < e.timestamp)

/-- Mean processing time over a window, `df['processing_time'].mean()`. -/
def meanPT (df : List MetricEvent) : ℚ :=
  (df.map (fun e => e.processingTime)).sum / (df.length : ℚ)

/-- Sum of squared deviations of the processing times from their mean;
pandas' sample variance (`ddof=1`) is this over `n - 1`, and
`df['processing_time'].std()` is its square root. -/
def ssdPT (df : List MetricEvent) : ℚ :=
  (df.map (fun e => (e.processingTime - meanPT df) ^ 2)).sum

/-- The comparison `row['processing_time'] > mean + 3 * std` of
`_detect_anomalies`, stated over rationals: for a window of at least two
events (pandas' sample std is NaN below that, and a comparison with NaN is
false) the inequality `t > mean + 3 * sqrt (ssd / (n - 1))` holds exactly
when `t > mean` and `(t - mean)^2 * (n - 1) > 9 * ssd`; the equivalence with
the square-root form is proved in `highTime_iff_real` below. -/
def highTime (df : List MetricEvent) (t : ℚ) : Bool :=
  2 ≤ df.length ∧ meanPT df < t ∧
    9 * ssdPT df < (t - meanPT df) ^ 2 * ((df.length : ℚ) - 1)

/-- First-appearance deduplication, the order `df['rule_name'].unique()`
yields. -/
def firstUnique : List String → List String
  | [] => []
  | a :: l => a :: firstUnique (l.filter (fun b => b ≠ a))
termination_by l => l.length
decreasing_by
  simp only [List.length_cons]
  exact Nat.lt_succ_of_le (List.length_filter_le _ _)

/-- Windowed success rate of one rule in percent,
`rule_df['success'].mean() * 100`. -/
def ruleSuccessRate (df : List MetricEvent) (r : String) : ℚ :=
  let rdf := df.filter (fun e => e.ruleName = r)
  ((rdf.filter (fun e => e.success)).length : ℚ) * 100 / (rdf.length : ℚ)

/-- One entry of the report's anomaly list.  The `threshold` field of a
`high_processing_time` entry is `mean + 3·std`, an irrational real, and is
therefore not carried in the embedding; the remaining fields are. -/
inductive Anomaly where
  | highProcessingTime (timestamp : ℚ) (ruleName : String) (value : ℚ)
  | lowSuccessRate (ruleName : String) (value : ℚ)
  deriving DecidableEq

/-- Embedding of `_detect_anomalies` (monitoring.py, lines 186-217): flag
the windowed events whose processing time exceeds `mean + 3·std` (in row
order), then the rules (in first-appearance order) whose windowed success
rate is below 95. -/
def detectAnomalies (df : List MetricEvent) : List Anomaly :=
  ((df.filter (fun e => highTime df e.processingTime)).map
      (fun e => Anomaly.highProcessingTime e.timestamp e.ruleName
        e.processingTime))
    ++ ((firstUnique (df.map (fun e => e.ruleName))).filter
          (fun r => ruleSuccessRate df r < 95)).map
        (fun r => Anomaly.lowSuccessRate r (ruleSuccessRate df r))

/-- The `anomalies` entry of `generate_performance_report` (lines 143-160):
anomalies detected over the window-filtered events. -/
def reportAnomalies (data : List MetricEvent) (now window : ℚ) :
    List Anomaly :=
  detectAnomalies (windowEvents data now window)

/-! ### Basic lemmas about mapping operations -/

@[simp] theorem Fields.getKey_setKey_self : ∀ (o : Fields) (k : String) (v : Value),
    (o.setKey k v).getKey k = some v
  | .nil, k, v => by simp [Fields.setKey, Fields.getKey]
  | .cons k' v' r, k, v => by
      by_cases h : k' = k
      · simp [Fields.setKey, Fields.getKey, h]
      · simp [Fields.setKey, Fields.getKey, h, Fields.getKey_setKey_self r k v]

theorem Fields.getKey_setKey_ne : ∀ (o : Fields) {k k' : String} (v : Value),
    k' ≠ k → (o.setKey k v).getKey k' = o.getKey k'
  | .nil, k, k', v, h => by
      simp [Fields.setKey, Fields.getKey, Ne.symm h]
  | .cons k₀ v₀ r, k, k', v, h => by
      by_cases h₀ : k₀ = k
      · subst h₀
        simp [Fields.setKey, Fields.getKey, Ne.symm h]
      · by_cases h₁ : k₀ = k'
        · simp [Fields.setKey, Fields.getKey, h₀, h₁, h]
        · simp [Fields.setKey, Fields.getKey, h₀, h₁,
            Fields.getKey_setKey_ne r v h]

@[simp] theorem Fields.getKey_popKey_self : ∀ (o : Fields) (k : String),
    (o.popKey k).getKey k = none
  | .nil, k => by simp [Fields.popKey, Fields.getKey]
  | .cons k' v r, k => by
      by_cases h : k' = k
      · simp [Fields.popKey, Fields.getKey, h, Fields.getKey_popKey_self r k]
      · simp [Fields.popKey, Fields.getKey, h, Fields.getKey_popKey_self r k]

theorem Fields.getKey_popKey_ne : ∀ (o : Fields) {k k' : String},
    k' ≠ k → (o.popKey k).getKey k' = o.getKey k'
  | .nil, k, k', h => by simp [Fields.popKey, Fields.getKey]
  | .cons k₀ v₀ r, k, k', h => by
      by_cases h₀ : k₀ = k
      · subst h₀
        simp [Fields.popKey, Fields.getKey, Ne.symm h,
          Fields.getKey_popKey_ne r h]
      · by_cases h₁ : k₀ = k'
        · simp [Fields.popKey, Fields.getKey, h₀, h₁, h]
        · simp [Fields.popKey, Fields.getKey, h₀, h₁,
            Fields.getKey_popKey_ne r h]

/-! ## Helper lemmas for nested-path reasoning -/

theorem getNestedVal_setNestedVal : ∀ (o : Fields) (path : List String) (v : Value),
    path ≠ [] → getNestedVal (.obj (setNestedVal o path v)) path = some v
  | _, [], _, h => absurd rfl h
  | o, [p], v, _ => by
      simp [setNestedVal, getNestedVal, Fields.getKey_setKey_self]
  | o, p :: p' :: ps, v, _ => by
      simp only [setNestedVal, getNestedVal, Fields.getKey_setKey_self]
      exact getNestedVal_setNestedVal _ (p' :: ps) v (by simp)

theorem getNested_eq_some (o : Fields) (path : List String) (v : Value)
    (h : getNested o path = some v) :
    getNestedVal (.obj o) path = some v ∧ v ≠ .null := by
  unfold getNested at h
  rcases hg : getNestedVal (.obj o) path with _ | u
  · rw [hg] at h
    cases h
  · rw [hg] at h
    cases u with
    | null => simp at h
    | str s => simp at h; subst h; exact ⟨rfl, by simp⟩
    | num q => simp at h; subst h; exact ⟨rfl, by simp⟩
    | vbool b => simp at h; subst h; exact ⟨rfl, by simp⟩
    | obj fs => simp at h; subst h; exact ⟨rfl, by simp⟩
    | arr es => simp at h; subst h; exact ⟨rfl, by simp⟩

theorem getNested_of_val (o : Fields) (path : List String) (v : Value)
    (h : getNestedVal (.obj o) path = some v) (hv : v ≠ .null) :
    getNested o path = some v := by
  unfold getNested
  rw [h]
  cases v <;> simp_all

theorem getNested_of_val_none (o : Fields) (path : List String)
    (h : getNestedVal (.obj o) path = none) : getNested o path = none := by
  unfold getNested
  rw [h]

theorem getNestedVal_two_inv (o : Fields) (p q : String) (v : Value)
    (h : getNestedVal (.obj o) [p, q] = some v) :
    ∃ fs, o.getKey p = some (.obj fs) ∧ fs.getKey q = some v := by
  rcases hg : o.getKey p with _ | w
  · simp [getNestedVal, hg] at h
  · cases w with
    | obj fs =>
        refine ⟨fs, rfl, ?_⟩
        rcases hq : fs.getKey q with _ | u
        · simp [getNestedVal, hg, hq] at h
        · simp [getNestedVal, hg, hq] at h
          rw [h]
    | str s => simp [getNestedVal, hg] at h
    | num q' => simp [getNestedVal, hg] at h
    | vbool b => simp [getNestedVal, hg] at h
    | null => simp [getNestedVal, hg] at h
    | arr es => simp [getNestedVal, hg] at h

/-! ## Claim C9 -/

/-- C9: for every record, dot path and value, `_set_nested_value` creates
every missing intermediate mapping along the path (and replaces a
non-mapping intermediate value by a fresh empty mapping), so that after the
call the path resolves to the assigned value; in particular, setting `a.b`
on a record whose `a` holds a scalar silently discards that scalar,
leaving `a` bound to the mapping containing only `b`. -/
theorem setNested_creates_path :
    (∀ (o : Fields) (path : List String) (v : Value), path ≠ [] →
        getNestedVal (.obj (setNestedVal o path v)) path = some v) ∧
    (∀ (o : Fields) (s : String) (v : Value), o.getKey "a" = some (.str s) →
        (setNestedVal o ["a", "b"] v).getKey "a"
          = some (.obj (.cons "b" v .nil))) := by
  constructor
  · exact fun o path v h => getNestedVal_setNestedVal o path v h
  · intro o s v h
    simp [setNestedVal, h, Fields.setKey, Fields.getKey_setKey_self]

/-- Witness for C9 at concrete inputs: the path `a.b` is created from an
empty record, and a scalar at `a` is destroyed by the assignment. -/
theorem setNested_creates_path_witness :
    getNestedVal (.obj (setNestedVal Fields.nil ["a", "b"] (.num 7))) ["a", "b"]
        = some (.num 7) ∧
    (setNestedVal (Fields.cons "a" (.str "s") .nil) ["a", "b"] (.num 7)).getKey "a"
        = some (.obj (.cons "b" (.num 7) .nil)) :=
  ⟨setNested_creates_path.1 Fields.nil ["a", "b"] (.num 7) (by decide),
   setNested_creates_path.2 (Fields.cons "a" (.str "s") .nil) "s" (.num 7)
     (by decide)⟩

/-! ## Claim C4 -/

/-- C4: for every record in which the path `a.b` resolves to a value, the
`field_rename` transform from `a.b` to `c` produces a record in which `c`
holds that value and `a.b` is absent, and applying the same rename a second
time is a no-op (the source path being absent, the transform returns the
record unchanged), so the rename with fixed arguments is idempotent after
the first application. -/
theorem rename_nested_moves (o : Fields) (v : Value)
    (h : getNestedS o "a.b" = some v) :
    getNestedS (transformFieldRename o "a.b" "c") "c" = some v ∧
    getNestedS (transformFieldRename o "a.b" "c") "a.b" = none ∧
    transformFieldRename (transformFieldRename o "a.b" "c") "a.b" "c"
      = transformFieldRename o "a.b" "c" := by
  have hab : pathParts "a.b" = ["a", "b"] := by decide
  have hcp : pathParts "c" = ["c"] := by decide
  have hdot : containsDot "a.b" = true := by decide
  have hac : ("a" : String) ≠ "c" := by decide
  have hca : ("c" : String) ≠ "a" := by decide
  rw [getNestedS, hab] at h
  obtain ⟨hval, hnn⟩ := getNested_eq_some o ["a", "b"] v h
  obtain ⟨fs, hga, hgb⟩ := getNestedVal_two_inv o "a" "b" v hval
  have ho' : transformFieldRename o "a.b" "c"
      = (o.setKey "c" v).setKey "a" (.obj (fs.popKey "b")) := by
    rw [transformFieldRename, hdot]
    simp only [if_true, getNestedS, hab, h]
    rw [setNestedS, hcp, removeNestedS, hab]
    simp only [setNestedVal, removeNested]
    rw [Fields.getKey_setKey_ne o v hac] at *
    rw [hga]
  have hgc : ((o.setKey "c" v).setKey "a" (.obj (fs.popKey "b"))).getKey "c"
      = some v := by
    rw [Fields.getKey_setKey_ne _ _ hca, Fields.getKey_setKey_self]
  have habnone :
      getNested ((o.setKey "c" v).setKey "a" (.obj (fs.popKey "b"))) ["a", "b"]
        = none := by
    apply getNested_of_val_none
    simp [getNestedVal, Fields.getKey_setKey_self, Fields.getKey_popKey_self]
  refine ⟨?_, ?_, ?_⟩
  · rw [ho', getNestedS, hcp]
    apply getNested_of_val _ _ _ _ hnn
    simp [getNestedVal, hgc]
  · rw [ho', getNestedS, hab]
    exact habnone
  · rw [ho']
    rw [transformFieldRename, hdot]
    simp only [if_true, getNestedS, hab, habnone]

/-- Witness for C4 at a concrete record holding `5` at `a.b`. -/
theorem rename_nested_moves_witness :
    getNestedS (transformFieldRename
        (Fields.cons "a" (.obj (.cons "b" (.num 5) .nil)) .nil) "a.b" "c") "c"
      = some (.num 5) ∧
    getNestedS (transformFieldRename
        (Fields.cons "a" (.obj (.cons "b" (.num 5) .nil)) .nil) "a.b" "c") "a.b"
      = none :=
  ⟨(rename_nested_moves (Fields.cons "a" (.obj (.cons "b" (.num 5) .nil)) .nil)
      (.num 5) (by decide)).1,
   (rename_nested_moves (Fields.cons "a" (.obj (.cons "b" (.num 5) .nil)) .nil)
      (.num 5) (by decide)).2.1⟩

/-! ## Claims C5 and C10 -/

theorem evaluateConditions_append_false (ops : String → Option CondHandler)
    (log : Fields) (l2 : List Condition)
    (h : evaluateConditions ops log l2 = false) :
    ∀ l1 : List Condition, evaluateConditions ops log (l1 ++ l2) = false
  | [] => h
  | c :: l1 => by
      have ih := evaluateConditions_append_false ops log l2 h l1
      rcases hr : evalConditionRaw ops log c with e | b
      · simp only [List.cons_append, evaluateConditions]
        rw [hr]
      · cases b
        · simp only [List.cons_append, evaluateConditions]
          rw [hr]
        · simp only [List.cons_append, evaluateConditions]
          rw [hr]
          exact ih

/-- C5: for every record and every condition whose operator is not
recognised (no registered handler), the condition evaluator returns false
(fails closed) and never raises to its caller: `_apply_condition` yields
`.ok false`, and a rule's AND-combined condition list containing such a
condition evaluates to false.  The operator dispatch itself is modelled
from the spec because `_apply_condition` is a stub in the source. -/
theorem unknown_operator_fails_closed (ops : String → Option CondHandler)
    (log : Fields) (c : Condition) (pre post : List Condition)
    (hop : ops c.operator = none) :
    (∀ (fv : Option Value) (cv : Value),
        applyCondition ops fv c.operator cv = .ok false) ∧
    evaluateConditions ops log (pre ++ c :: post) = false := by
  have hac : ∀ (fv : Option Value) (cv : Value),
      applyCondition ops fv c.operator cv = .ok false := by
    intro fv cv
    simp [applyCondition, hop]
  refine ⟨hac, ?_⟩
  apply evaluateConditions_append_false
  simp only [evaluateConditions]
  rcases hv : c.value with _ | cv
  · simp [evalConditionRaw, hv]
  · simp [evalConditionRaw, hv, hac]

/-- Witness for C5: a condition with operator `unknown_op` under an empty
handler table evaluates to `.ok false` and fails its rule. -/
theorem unknown_operator_fails_closed_witness :
    applyCondition (fun _ => none) (getNestedS Fields.nil "f") "unknown_op"
        (.num 1) = .ok false ∧
    evaluateConditions (fun _ => none) Fields.nil
        [⟨"f", "unknown_op", some (.num 1)⟩] = false :=
  ⟨(unknown_operator_fails_closed (fun _ => none) Fields.nil
      ⟨"f", "unknown_op", some (.num 1)⟩ [] [] rfl).1
      (getNestedS Fields.nil "f") (.num 1),
   (unknown_operator_fails_closed (fun _ => none) Fields.nil
      ⟨"f", "unknown_op", some (.num 1)⟩ [] [] rfl).2⟩

/-- C10: a rule with an empty conditions list evaluates as matching (the
AND over zero conditions is vacuously true), so the first enabled rule with
no conditions captures every record that reaches it during matching — every
earlier rule being disabled or non-matching — and shadows all the rules
after it, whatever they are. -/
theorem empty_conditions_match_all (ops : String → Option CondHandler)
    (log : Fields) (r : RoutingRule) (hen : r.enabled = true)
    (hc : r.conditions = []) :
    evaluateConditions ops log r.conditions = true ∧
    ∀ pre post : List RoutingRule,
      (∀ x ∈ pre,
        x.enabled = false ∨ evaluateConditions ops log x.conditions = false) →
      findMatchingRule ops (pre ++ r :: post) log = some r := by
  have hev : evaluateConditions ops log r.conditions = true := by
    rw [hc]
    rfl
  refine ⟨hev, ?_⟩
  intro pre
  induction pre with
  | nil =>
      intro post _
      simp [findMatchingRule, hen, hev]
  | cons x pre ih =>
      intro post hpre
      have hrest : ∀ y ∈ pre,
          y.enabled = false ∨ evaluateConditions ops log y.conditions = false :=
        fun y hy => hpre y (by simp [hy])
      rcases hpre x (by simp) with hxe | hxc
      · simpa [findMatchingRule, hxe] using ih post hrest
      · rcases hxen : x.enabled with _ | _
        · simpa [findMatchingRule, hxen] using ih post hrest
        · simpa [findMatchingRule, hxen, hxc] using ih post hrest

/-- Witness for C10: with an unconditional enabled rule in second position,
a disabled rule before it and a further rule after it, matching returns the
unconditional rule. -/
theorem empty_conditions_match_all_witness :
    evaluateConditions (fun _ => none) Fields.nil
        (RoutingRule.mk "first" [] [] (Fields.cons "type" (.str "d") .nil)
          1 true .nil).conditions = true ∧
    findMatchingRule (fun _ => none)
        ([RoutingRule.mk "off" [] [] .nil 0 false .nil]
          ++ RoutingRule.mk "first" [] [] (Fields.cons "type" (.str "d") .nil)
              1 true .nil
            :: [RoutingRule.mk "later" [] [] .nil 2 true .nil]) Fields.nil
      = some (RoutingRule.mk "first" [] []
          (Fields.cons "type" (.str "d") .nil) 1 true .nil) :=
  ⟨(empty_conditions_match_all (fun _ => none) Fields.nil
      (RoutingRule.mk "first" [] [] (Fields.cons "type" (.str "d") .nil)
        1 true .nil) rfl rfl).1,
   (empty_conditions_match_all (fun _ => none) Fields.nil
      (RoutingRule.mk "first" [] [] (Fields.cons "type" (.str "d") .nil)
        1 true .nil) rfl rfl).2
      [RoutingRule.mk "off" [] [] .nil 0 false .nil]
      [RoutingRule.mk "later" [] [] .nil 2 true .nil]
      (by decide)⟩

/-! ## Claim C2 -/

theorem findMatchingRule_eq_find? (ops : String → Option CondHandler)
    (log : Fields) : ∀ rules : List RoutingRule,
    findMatchingRule ops rules log
      = rules.find?
          (fun r => r.enabled && evaluateConditions ops log r.conditions)
  | [] => rfl
  | r :: rs => by
      rcases hen : r.enabled with _ | _
      · simp [findMatchingRule, hen, List.find?_cons,
          findMatchingRule_eq_find? ops log rs]
      · rcases hev : evaluateConditions ops log r.conditions with _ | _
        · simp [findMatchingRule, hen, hev, List.find?_cons,
            findMatchingRule_eq_find? ops log rs]
        · simp [findMatchingRule, hen, hev, List.find?_cons]

/-- C2: rule loading sorts by non-decreasing `priority` with ties kept in
load order (Python's `list.sort` is stable: filtering the sorted list to any
one priority returns exactly the originally-loaded sublist of that
priority), and matching scans that order, skipping disabled rules and
returning the first enabled rule whose conditions all evaluate true — or
none when no rule matches. -/
theorem rules_priority_order_and_first_match (ops : String → Option CondHandler)
    (rules : List RoutingRule) (log : Fields) :
    (loadRules rules).Pairwise (fun a b => a.priority ≤ b.priority) ∧
    (∀ p : Int, (loadRules rules).filter (fun r => decide (r.priority = p))
        = rules.filter (fun r => decide (r.priority = p))) ∧
    findMatchingRule ops (loadRules rules) log
      = (loadRules rules).find?
          (fun r => r.enabled && evaluateConditions ops log r.conditions) ∧
    (findMatchingRule ops (loadRules rules) log = none ↔
      ∀ r ∈ loadRules rules,
        ¬(r.enabled = true ∧ evaluateConditions ops log r.conditions = true)) := by
  have htrans : ∀ a b c : RoutingRule,
      decide (a.priority ≤ b.priority) = true →
      decide (b.priority ≤ c.priority) = true →
      decide (a.priority ≤ c.priority) = true := by
    intro a b c hab hbc
    simp only [decide_eq_true_eq] at *
    omega
  have htotal : ∀ a b : RoutingRule,
      (decide (a.priority ≤ b.priority) || decide (b.priority ≤ a.priority))
        = true := by
    intro a b
    simp only [Bool.or_eq_true, decide_eq_true_eq]
    omega
  have hfind := findMatchingRule_eq_find? ops log (loadRules rules)
  refine ⟨?_, ?_, hfind, ?_⟩
  · exact (List.sorted_mergeSort htrans htotal rules).imp
      (fun h => of_decide_eq_true h)
  · intro p
    have hqmem : ∀ a ∈ rules.filter (fun r => decide (r.priority = p)),
        (fun r : RoutingRule => decide (r.priority = p)) a = true :=
      fun a ha => (List.mem_filter.mp ha).2
    have hpair : (rules.filter (fun r => decide (r.priority = p))).Pairwise
        (fun a b => decide (a.priority ≤ b.priority) = true) := by
      apply List.pairwise_of_forall_mem_list
      intro a ha b hb
      have ha' := (List.mem_filter.mp ha).2
      have hb' := (List.mem_filter.mp hb).2
      simp only [decide_eq_true_eq] at ha' hb' ⊢
      omega
    have h1 : (rules.filter (fun r => decide (r.priority = p))).Sublist
        (loadRules rules) :=
      List.sublist_mergeSort htrans htotal hpair (List.filter_sublist rules)
    have h2 : ((loadRules rules).filter
          (fun r => decide (r.priority = p))).Perm
        (rules.filter (fun r => decide (r.priority = p))) :=
      (List.mergeSort_perm rules _).filter _
    have h3 : (rules.filter (fun r => decide (r.priority = p))).Sublist
        ((loadRules rules).filter (fun r => decide (r.priority = p))) := by
      have h4 := h1.filter (fun r => decide (r.priority = p))
      rwa [List.filter_eq_self.mpr hqmem] at h4
    exact (h3.eq_of_length h2.length_eq.symm).symm
  · rw [hfind, List.find?_eq_none]
    simp [Bool.and_eq_true]

/-! ## Claim C1 -/

theorem routeFold_append (body : Fields → Except String (Option (Value × Fields))) :
    ∀ (l1 : List Fields) (m : List (Value × List Fields)) (l2 : List Fields),
      routeFold body m (l1 ++ l2) = routeFold body (routeFold body m l1) l2
  | [], _, _ => rfl
  | x :: l1, m, l2 => by
      simp only [List.cons_append, routeFold]
      exact routeFold_append body l1 _ l2

theorem mem_lookupDest_appendDest_self :
    ∀ (m : List (Value × List Fields)) (d : Value) (l : Fields),
      l ∈ lookupDest (appendDest m d l) d
  | [], d, l => by simp [appendDest, lookupDest]
  | (k, ls) :: rest, d, l => by
      by_cases h : k = d
      · simp [appendDest, lookupDest, h]
      · simp [appendDest, lookupDest, h,
          mem_lookupDest_appendDest_self rest d l]

theorem mem_lookupDest_appendDest_mono :
    ∀ (m : List (Value × List Fields)) (d d' : Value) (l x : Fields),
      l ∈ lookupDest m d → l ∈ lookupDest (appendDest m d' x) d
  | [], d, d', l, x, h => by simp [lookupDest] at h
  | (k, ls) :: rest, d, d', l, x, h => by
      by_cases hk : k = d'
      · subst hk
        by_cases hd : k = d
        · subst hd
          simp [lookupDest] at h
          simp [appendDest, lookupDest, h]
        · simp [lookupDest, hd] at h
          simp [appendDest, lookupDest, hd, h]
      · by_cases hd : k = d
        · subst hd
          simp [lookupDest] at h
          simp [appendDest, lookupDest, hk, h]
        · simp [lookupDest, hd] at h
          simp [appendDest, lookupDest, hk, hd,
            mem_lookupDest_appendDest_mono rest d d' l x h]

theorem mem_lookupDest_routeFold_mono
    (body : Fields → Except String (Option (Value × Fields))) :
    ∀ (logs : List Fields) (m : List (Value × List Fields)) (d : Value)
      (l : Fields), l ∈ lookupDest m d →
      l ∈ lookupDest (routeFold body m logs) d
  | [], _, _, _, h => h
  | x :: logs, m, d, l, h => by
      simp only [routeFold]
      apply mem_lookupDest_routeFold_mono body logs
      rcases hp : processLogWith body x with _ | ⟨d', pl⟩
      · simpa [hp] using h
      · simp only [hp]
        exact mem_lookupDest_appendDest_mono m d d' l pl h

theorem mem_lookupDest_routeFold
    (body : Fields → Except String (Option (Value × Fields))) :
    ∀ (logs : List Fields) (m : List (Value × List Fields)) (l : Fields)
      (d : Value) (pl : Fields), l ∈ logs → body l = .ok (some (d, pl)) →
      pl ∈ lookupDest (routeFold body m logs) d
  | [], _, l, _, _, hl, _ => absurd hl (List.not_mem_nil l)
  | x :: logs, m, l, d, pl, hl, hb => by
      rcases List.mem_cons.mp hl with rfl | hl'
      · have hp : processLogWith body l = some (d, pl) := by
          simp [processLogWith, hb]
        simp only [routeFold, hp]
        exact mem_lookupDest_routeFold_mono body logs _ d pl
          (mem_lookupDest_appendDest_self m d pl)
      · simp only [routeFold]
        exact mem_lookupDest_routeFold body logs _ l d pl hl' hb

/-- C1: the orchestrator isolates failures at record granularity.  For any
behaviour of the per-record body (the match / transform / enrich steps), a
record whose body raises is caught inside its own task and excluded: the
returned mapping equals the one for the batch without that record; and
every other record whose body succeeds with destination `d` still appears
in the returned mapping's bucket for `d`.  In particular `route_logs` never
propagates the exception. -/
theorem route_logs_error_isolation
    (body : Fields → Except String (Option (Value × Fields)))
    (pre post : List Fields) (bad : Fields) (err : String)
    (hbad : body bad = .error err) :
    routeLogs body (pre ++ bad :: post) = routeLogs body (pre ++ post) ∧
    ∀ (l : Fields) (d : Value) (pl : Fields), l ∈ pre ++ bad :: post →
      body l = .ok (some (d, pl)) →
      pl ∈ lookupDest (routeLogs body (pre ++ bad :: post)) d := by
  have hnone : processLogWith body bad = none := by
    simp [processLogWith, hbad]
  constructor
  · unfold routeLogs
    rw [routeFold_append body pre [] (bad :: post),
      routeFold_append body pre [] post]
    simp only [routeFold, hnone]
  · intro l d pl hl hb
    exact mem_lookupDest_routeFold body _ [] l d pl hl hb

/-- Witness for C1: with a body that fails exactly on records carrying a
`bad` key, a three-record batch whose middle record fails routes to the same
mapping as the two-record batch without it, and a successful record is
present in its destination's bucket. -/
theorem route_logs_error_isolation_witness :
    routeLogs
        (fun l : Fields =>
          match l.getKey "bad" with
          | some _ => Except.error "boom"
          | none => Except.ok (some (Value.str "d", l)))
        [Fields.cons "u" (.num 1) .nil, Fields.cons "bad" (.num 0) .nil,
          Fields.cons "w" (.num 2) .nil]
      = routeLogs
          (fun l : Fields =>
            match l.getKey "bad" with
            | some _ => Except.error "boom"
            | none => Except.ok (some (Value.str "d", l)))
          [Fields.cons "u" (.num 1) .nil, Fields.cons "w" (.num 2) .nil] ∧
    Fields.cons "u" (.num 1) .nil ∈
      lookupDest
        (routeLogs
          (fun l : Fields =>
            match l.getKey "bad" with
            | some _ => Except.error "boom"
            | none => Except.ok (some (Value.str "d", l)))
          [Fields.cons "u" (.num 1) .nil, Fields.cons "bad" (.num 0) .nil,
            Fields.cons "w" (.num 2) .nil]) (Value.str "d") :=
  ⟨(route_logs_error_isolation _ [Fields.cons "u" (.num 1) .nil]
      [Fields.cons "w" (.num 2) .nil] (Fields.cons "bad" (.num 0) .nil)
      "boom" rfl).1,
   (route_logs_error_isolation _ [Fields.cons "u" (.num 1) .nil]
      [Fields.cons "w" (.num 2) .nil] (Fields.cons "bad" (.num 0) .nil)
      "boom" rfl).2 (Fields.cons "u" (.num 1) .nil) (Value.str "d")
      (Fields.cons "u" (.num 1) .nil) (by simp) rfl⟩

/-! ## Claim C3 -/

theorem sendRetryLoop_attempts_le (o : Nat → Bool) (m : Nat) (b : ℚ) :
    ∀ (fuel rc : Nat), (sendRetryLoop o m b rc fuel).attempts ≤ rc + fuel
  | 0, rc => by simp [sendRetryLoop]
  | fuel + 1, rc => by
      simp only [sendRetryLoop]
      by_cases h1 : o rc = true
      · simp [h1]
      · by_cases h2 : rc + 1 = m
        · simp [h1, h2]
          omega
        · simp only [h1, h2, Bool.false_eq_true, if_false]
          have ih := sendRetryLoop_attempts_le o m b fuel (rc + 1)
          omega

theorem sendRetryLoop_attempts_ge (o : Nat → Bool) (m : Nat) (b : ℚ) :
    ∀ (fuel rc : Nat), rc ≤ (sendRetryLoop o m b rc fuel).attempts
  | 0, rc => by simp [sendRetryLoop]
  | fuel + 1, rc => by
      simp only [sendRetryLoop]
      by_cases h1 : o rc = true
      · simp [h1]
      · by_cases h2 : rc + 1 = m
        · simp [h1, h2]
          omega
        · simp only [h1, h2, Bool.false_eq_true, if_false]
          have ih := sendRetryLoop_attempts_ge o m b fuel (rc + 1)
          omega

theorem sendRetryLoop_attempts_pos (o : Nat → Bool) (m : Nat) (b : ℚ) :
    ∀ (fuel rc : Nat), 1 ≤ fuel →
      rc + 1 ≤ (sendRetryLoop o m b rc fuel).attempts
  | 0, _, hf => absurd hf (by omega)
  | fuel + 1, rc, _ => by
      simp only [sendRetryLoop]
      by_cases h1 : o rc = true
      · simp [h1]
      · by_cases h2 : rc + 1 = m
        · simp [h1, h2]
        · simp only [h1, h2, Bool.false_eq_true, if_false]
          have ih := sendRetryLoop_attempts_ge o m b fuel (rc + 1)
          omega

theorem sendRetryLoop_allfail (o : Nat → Bool) (m : Nat) (b : ℚ)
    (ho : ∀ k, o k = false) :
    ∀ (fuel rc : Nat), 1 ≤ fuel → rc + fuel = m →
      sendRetryLoop o m b rc fuel
        = ⟨m, false, (List.range' (rc + 1) (fuel - 1)).map (fun k => b ^ k),
            some m⟩
  | 0, _, hf, _ => absurd hf (by omega)
  | fuel + 1, rc, _, hm => by
      simp only [sendRetryLoop, ho rc, Bool.false_eq_true, if_false]
      by_cases h2 : rc + 1 = m
      · have hf0 : fuel = 0 := by omega
        subst hf0
        simp [h2]
      · have hf1 : 1 ≤ fuel := by omega
        rw [sendRetryLoop_allfail o m b ho fuel (rc + 1) hf1 (by omega)]
        have hful : fuel + 1 - 1 = (fuel - 1) + 1 := by omega
        simp only [h2, if_false, hful, List.range'_succ, List.map_cons]

theorem sendRetryLoop_eventual_success (o : Nat → Bool) (m : Nat) (b : ℚ)
    (hm : 1 ≤ m) (hfail : ∀ j, j < m - 1 → o j = false)
    (hsucc : o (m - 1) = true) :
    ∀ (fuel rc : Nat), rc + fuel = m → rc ≤ m - 1 →
      sendRetryLoop o m b rc fuel
        = ⟨m, true, (List.range' (rc + 1) (m - 1 - rc)).map (fun k => b ^ k),
            none⟩
  | 0, rc, hsum, hrc => absurd (hsum ▸ hrc) (by omega)
  | fuel + 1, rc, hsum, hrc => by
      by_cases hlast : rc = m - 1
      · subst hlast
        simp only [sendRetryLoop, hsucc, if_true]
        have : m - 1 + 1 = m := by omega
        simp [this]
      · have hlt : rc < m - 1 := by omega
        simp only [sendRetryLoop, hfail rc hlt, Bool.false_eq_true, if_false]
        have h2 : ¬(rc + 1 = m) := by omega
        rw [sendRetryLoop_eventual_success o m b hm hfail hsucc fuel (rc + 1)
          (by omega) (by omega)]
        have hspan : m - 1 - rc = (m - 1 - (rc + 1)) + 1 := by omega
        simp only [h2, if_false, hspan, List.range'_succ, List.map_cons]

theorem sendRetryLoop_waits (o : Nat → Bool) (m : Nat) (b : ℚ) :
    ∀ (fuel rc : Nat), rc + fuel = m →
      (sendRetryLoop o m b rc fuel).waits
        = (List.range' (rc + 1)
            ((sendRetryLoop o m b rc fuel).attempts - rc - 1)).map
            (fun k => b ^ k)
  | 0, rc, _ => by simp [sendRetryLoop]
  | fuel + 1, rc, hsum => by
      simp only [sendRetryLoop]
      by_cases h1 : o rc = true
      · simp [h1]
      · by_cases h2 : rc + 1 = m
        · simp [h1, h2]
          omega
        · simp only [h1, h2, Bool.false_eq_true, if_false]
          have hf1 : 1 ≤ fuel := by omega
          have hA := sendRetryLoop_attempts_pos o m b fuel (rc + 1) hf1
          have ih := sendRetryLoop_waits o m b fuel (rc + 1) (by omega)
          simp only [ih]
          have hspan : (sendRetryLoop o m b (rc + 1) fuel).attempts - rc - 1
              = ((sendRetryLoop o m b (rc + 1) fuel).attempts - (rc + 1) - 1)
                  + 1 := by omega
          simp only [hspan, List.range'_succ, List.map_cons]

/-- C3: retry behaviour of `_send_with_retry` and independence of
destinations in `_send_to_destinations`.  For `max_retries = m ≥ 1` and
backoff factor `b`: a sink is invoked at most `m` times (default
`max_retries` is 3, default factor 1.5); a sink failing on every invocation
is invoked exactly `m` times, is reported as a permanent failure (the log
line quotes `m` retries), and `m - 1` retry invocations occurred, each
preceded by one backoff sleep; a sink failing exactly `m - 1` times and
then succeeding delivers after exactly `m` invocations; the sleep before
retry number `n` (first retry is `n = 1`) is `b ^ n`; and every destination
of a dispatch with a registered sink gets its own retry-wrapped delivery
regardless of the other destinations' outcomes. -/
theorem send_retry_policy (m : Nat) (b : ℚ) (hm : 1 ≤ m) :
    defaultMaxRetries = 3 ∧ defaultBackoffFactor = 3 / 2 ∧
    (∀ o : Nat → Bool, (sendWithRetry o m b).attempts ≤ m) ∧
    (∀ o : Nat → Bool, (∀ k, o k = false) →
        sendWithRetry o m b
          = ⟨m, false, (List.range' 1 (m - 1)).map (fun k => b ^ k),
              some m⟩) ∧
    (∀ o : Nat → Bool, (∀ j, j < m - 1 → o j = false) → o (m - 1) = true →
        sendWithRetry o m b
          = ⟨m, true, (List.range' 1 (m - 1)).map (fun k => b ^ k), none⟩) ∧
    (∀ o : Nat → Bool,
        (sendWithRetry o m b).waits
          = (List.range' 1 ((sendWithRetry o m b).attempts - 1)).map
              (fun k => b ^ k)) ∧
    (∀ (senders : Value → Option (List Fields → Nat → Bool))
        (batches : List (Value × List Fields)) (d : Value)
        (ls : List Fields) (s : List Fields → Nat → Bool),
        (d, ls) ∈ batches → senders d = some s →
        (d, sendWithRetry (s ls) defaultMaxRetries defaultBackoffFactor)
          ∈ sendToDestinations senders batches) := by
  refine ⟨rfl, rfl, ?_, ?_, ?_, ?_, ?_⟩
  · intro o
    have := sendRetryLoop_attempts_le o m b m 0
    simpa [sendWithRetry] using this
  · intro o ho
    have := sendRetryLoop_allfail o m b ho m 0 hm (by omega)
    simpa [sendWithRetry] using this
  · intro o hfail hsucc
    have := sendRetryLoop_eventual_success o m b hm hfail hsucc m 0
      (by omega) (by omega)
    simpa [sendWithRetry] using this
  · intro o
    have := sendRetryLoop_waits o m b m 0 (by omega)
    simpa [sendWithRetry] using this
  · intro senders batches d ls s hmem hsend
    apply List.mem_filterMap.mpr
    exact ⟨(d, ls), hmem, by simp [hsend]⟩

/-- Witness for C3 with the default parameters `m = 3`, `b = 3/2`: an
always-failing sink is invoked three times, sleeps `(3/2)^1` then `(3/2)^2`,
and reports permanent failure; a sink succeeding on its third invocation
delivers after the same two sleeps. -/
theorem send_retry_policy_witness :
    sendWithRetry (fun _ => false) 3 (3 / 2)
        = ⟨3, false, (List.range' 1 2).map (fun k => (3 / 2 : ℚ) ^ k),
            some 3⟩ ∧
    sendWithRetry (fun k => decide (k = 2)) 3 (3 / 2)
        = ⟨3, true, (List.range' 1 2).map (fun k => (3 / 2 : ℚ) ^ k),
            none⟩ :=
  ⟨(send_retry_policy 3 (3 / 2) (by decide)).2.2.2.1 (fun _ => false)
      (fun _ => rfl),
   (send_retry_policy 3 (3 / 2) (by decide)).2.2.2.2.1
      (fun k => decide (k = 2))
      (fun j hj => by
        simp only [decide_eq_false_iff_not]
        omega)
      (by decide)⟩

/-! ## Claim C6 -/

/-- C6 counterexample: in record `{a: 1, b: "x"}`, a `sum` aggregate over
`a` and `b` into `t` leaves the record unchanged and `t` unset, although the
operand `a` does coerce to a number — the `ValueError` raised for `b` inside
the single `try` around the whole comprehension abandons the aggregation
instead of skipping `b` individually (the claim would give `t = 1.0`). -/
theorem aggregate_not_individually_skipped :
    transformFieldAggregate
        (Fields.cons "a" (.num 1) (.cons "b" (.str "x") .nil))
        [["a"], ["b"]] (some ["t"]) "sum" ""
      = .ok (Fields.cons "a" (.num 1) (.cons "b" (.str "x") .nil)) ∧
    getNestedVal
        (.obj (Fields.cons "a" (.num 1) (.cons "b" (.str "x") .nil))) ["t"]
      = none ∧
    pyFloat (.num 1) = .ok 1 :=
  ⟨rfl, rfl, rfl⟩

/-- C6 amended: for `sum`/`avg` aggregation, one operand failing numeric
coercion (a `ValueError`) abandons the whole combination — the record is
returned unchanged and the target field stays unset — rather than the bad
operand being individually skipped; when no operand resolves the record is
likewise returned unchanged (target unset); only when every operand coerces
is the combined sum (or average) written to the target field. -/
theorem aggregate_abort_on_coercion_failure (log : Fields)
    (sourceFields : List (List String)) (target : List String) (sep : String)
    (hsf : sourceFields ≠ []) :
    (coerceFloats (sourceFields.filterMap (fun f => getNested log f))
        = .error .valueError →
      transformFieldAggregate log sourceFields (some target) "sum" sep
          = .ok log ∧
      transformFieldAggregate log sourceFields (some target) "avg" sep
          = .ok log) ∧
    (sourceFields.filterMap (fun f => getNested log f) = [] →
      transformFieldAggregate log sourceFields (some target) "sum" sep
          = .ok log ∧
      transformFieldAggregate log sourceFields (some target) "avg" sep
          = .ok log) ∧
    (∀ qs : List ℚ,
      coerceFloats (sourceFields.filterMap (fun f => getNested log f))
          = .ok qs →
      sourceFields.filterMap (fun f => getNested log f) ≠ [] →
      transformFieldAggregate log sourceFields (some target) "sum" sep
          = .ok (setNestedVal log target (.num (qs.foldl (· + ·) 0))) ∧
      transformFieldAggregate log sourceFields (some target) "avg" sep
          = .ok (setNestedVal log target
              (.num ((qs.foldl (· + ·) 0) / (qs.length : ℚ))))) := by
  have hse : sourceFields.isEmpty = false := by
    cases sourceFields
    · exact absurd rfl hsf
    · rfl
  refine ⟨?_, ?_, ?_⟩
  · intro hc
    have hvne : (sourceFields.filterMap (fun f => getNested log f)).isEmpty
        = false := by
      rcases hv : sourceFields.filterMap (fun f => getNested log f)
        with _ | ⟨x, xs⟩
      · rw [hv] at hc
        simp [coerceFloats] at hc
      · rfl
    constructor <;> simp [transformFieldAggregate, hse, hvne, hc]
  · intro hv
    constructor <;> simp [transformFieldAggregate, hse, hv]
  · intro qs hqs hne
    have hvne : (sourceFields.filterMap (fun f => getNested log f)).isEmpty
        = false := by
      rcases hv : sourceFields.filterMap (fun f => getNested log f)
        with _ | ⟨x, xs⟩
      · exact absurd hv hne
      · rfl
    constructor <;> simp [transformFieldAggregate, hse, hvne, hqs]

/-- Witness for C6's amended claim: a single non-numeric operand makes the
`sum` aggregate return the record unchanged. -/
theorem aggregate_abort_witness :
    transformFieldAggregate (Fields.cons "a" (.str "x") .nil) [["a"]]
        (some ["t"]) "sum" "" = .ok (Fields.cons "a" (.str "x") .nil) :=
  ((aggregate_abort_on_coercion_failure (Fields.cons "a" (.str "x") .nil)
      [["a"]] ["t"] "" (by decide)).1 rfl).1

/-! ## Claim C7 -/

theorem getNestedVal_metadata (log md : Fields) (k : String) :
    getNestedVal (.obj (log.setKey "_metadata" (.obj md))) ["_metadata", k]
      = md.getKey k := by
  simp only [getNestedVal, Fields.getKey_setKey_self]
  rcases h : md.getKey k with _ | v <;> simp [getNestedVal, h]

/-- C7 counterexample: a matched rule configured with one step of
unregistered type `nope` has no transformation applied to the record, yet
the enrichment's `transformations_applied` still lists `nope`: the list is
`[t['type'] for t in rule.transformations]` — the configured step types —
not the transforms actually applied (here none). -/
theorem enrichment_lists_configured_not_applied :
    applyTransformations (fun _ => none)
        (RoutingRule.mk "r1" [] [TransformStep.mk "nope" .nil]
          (Fields.cons "type" (.str "d") .nil) 1 true .nil).transformations
        (Fields.cons "x" (.num 1) .nil)
      = Fields.cons "x" (.num 1) .nil ∧
    getNestedVal
        (.obj (enrichLog (Fields.cons "x" (.num 1) .nil)
          (RoutingRule.mk "r1" [] [TransformStep.mk "nope" .nil]
            (Fields.cons "type" (.str "d") .nil) 1 true .nil) "T"))
        ["_metadata", "transformations_applied"]
      = some (.arr (.cons (.str "nope") .nil)) ∧
    Elems.cons (.str "nope") Elems.nil ≠ Elems.nil :=
  ⟨rfl, rfl, by decide⟩

/-- C7 amended: after the transformation step chain — whatever the registry
and however the steps fared — the pipeline unconditionally attaches routing
metadata holding the matched rule's name, the processing timestamp, and the
list of transform types configured on the rule's transformation steps
(whether or not each step was actually applied), and copies the rule
metadata's `compliance` and `classification` entries exactly when
present. -/
theorem enrichment_always_runs (registry : String → Option Transformer)
    (l0 : Fields) (rule : RoutingRule) (now : String) :
    getNestedVal
        (.obj (enrichLog (applyTransformations registry rule.transformations l0)
          rule now)) ["_metadata", "route_name"] = some (.str rule.name) ∧
    getNestedVal
        (.obj (enrichLog (applyTransformations registry rule.transformations l0)
          rule now)) ["_metadata", "routing_time"] = some (.str now) ∧
    getNestedVal
        (.obj (enrichLog (applyTransformations registry rule.transformations l0)
          rule now)) ["_metadata", "transformations_applied"]
      = some (.arr (listToElems
          (rule.transformations.map (fun t => .str t.ttype)))) ∧
    getNestedVal
        (.obj (enrichLog (applyTransformations registry rule.transformations l0)
          rule now)) ["_metadata", "compliance"]
      = rule.metadata.getKey "compliance" ∧
    getNestedVal
        (.obj (enrichLog (applyTransformations registry rule.transformations l0)
          rule now)) ["_metadata", "classification"]
      = rule.metadata.getKey "classification" := by
  rcases hc : rule.metadata.getKey "compliance" with _ | cv <;>
    rcases hk : rule.metadata.getKey "classification" with _ | kv <;>
      refine ⟨?_, ?_, ?_, ?_, ?_⟩ <;>
        simp [enrichLog, hc, hk, getNestedVal_metadata, Fields.setKey,
          Fields.getKey]

/-! ## Claim C8 -/

theorem ssdPT_nonneg (df : List MetricEvent) : 0 ≤ ssdPT df := by
  apply List.sum_nonneg
  intro x hx
  simp only [List.mem_map] at hx
  obtain ⟨e, -, rfl⟩ := hx
  positivity

/-- Equivalence between the rational comparison used in the embedding of
`row['processing_time'] > mean + 3 * std` and its square-root form: for a
window of at least two events, `highTime` holds exactly when the processing
time exceeds the mean plus three sample standard deviations (pandas
`ddof=1`: variance `ssd / (n - 1)`). -/
theorem highTime_iff_real (df : List MetricEvent) (h2 : 2 ≤ df.length)
    (t : ℚ) :
    highTime df t = true ↔
      ((meanPT df : ℝ)
          + 3 * Real.sqrt ((ssdPT df : ℝ) / ((df.length : ℝ) - 1))
        < (t : ℝ)) := by
  have hn2 : (2 : ℝ) ≤ (df.length : ℝ) := by exact_mod_cast h2
  have hden : (0 : ℝ) < (df.length : ℝ) - 1 := by linarith
  have hS : (0 : ℝ) ≤ (ssdPT df : ℝ) := by exact_mod_cast ssdPT_nonneg df
  have hvar : (0 : ℝ) ≤ (ssdPT df : ℝ) / ((df.length : ℝ) - 1) :=
    div_nonneg hS (le_of_lt hden)
  have hs0 : (0 : ℝ) ≤ Real.sqrt ((ssdPT df : ℝ) / ((df.length : ℝ) - 1)) :=
    Real.sqrt_nonneg _
  have hs2 : Real.sqrt ((ssdPT df : ℝ) / ((df.length : ℝ) - 1)) ^ 2
      = (ssdPT df : ℝ) / ((df.length : ℝ) - 1) := Real.sq_sqrt hvar
  have hmul : ((ssdPT df : ℝ) / ((df.length : ℝ) - 1)) * ((df.length : ℝ) - 1)
      = (ssdPT df : ℝ) := div_mul_cancel₀ _ (ne_of_gt hden)
  unfold highTime
  simp only [decide_eq_true_eq]
  constructor
  · rintro ⟨-, hμt, hsq⟩
    have hμt' : (meanPT df : ℝ) < (t : ℝ) := by exact_mod_cast hμt
    have hsq' : 9 * (ssdPT df : ℝ)
        < ((t : ℝ) - (meanPT df : ℝ)) ^ 2 * ((df.length : ℝ) - 1) := by
      exact_mod_cast hsq
    by_contra hcon
    push_neg at hcon
    have hle : (t : ℝ) - (meanPT df : ℝ)
        ≤ 3 * Real.sqrt ((ssdPT df : ℝ) / ((df.length : ℝ) - 1)) := by
      linarith
    have h1 : ((t : ℝ) - (meanPT df : ℝ)) ^ 2
        ≤ (3 * Real.sqrt ((ssdPT df : ℝ) / ((df.length : ℝ) - 1))) ^ 2 :=
      pow_le_pow_left₀ (by linarith) hle 2
    have h2 : (3 * Real.sqrt ((ssdPT df : ℝ) / ((df.length : ℝ) - 1))) ^ 2
        = 9 * ((ssdPT df : ℝ) / ((df.length : ℝ) - 1)) := by
      rw [mul_pow, hs2]
      norm_num
    have h3 : ((t : ℝ) - (meanPT df : ℝ)) ^ 2 * ((df.length : ℝ) - 1)
        ≤ 9 * ((ssdPT df : ℝ) / ((df.length : ℝ) - 1)) * ((df.length : ℝ) - 1) :=
      mul_le_mul_of_nonneg_right (h1.trans_eq h2) hden.le
    have h4 : 9 * ((ssdPT df : ℝ) / ((df.length : ℝ) - 1)) * ((df.length : ℝ) - 1)
        = 9 * (ssdPT df : ℝ) := by
      rw [mul_assoc, hmul]
    linarith
  · intro h
    have ht0 : (0 : ℝ) < (t : ℝ) - (meanPT df : ℝ) := by linarith
    refine ⟨h2, ?_, ?_⟩
    · exact_mod_cast lt_of_le_of_lt (by linarith : (meanPT df : ℝ)
        ≤ (meanPT df : ℝ)
          + 3 * Real.sqrt ((ssdPT df : ℝ) / ((df.length : ℝ) - 1))) h
    · have h1 : 3 * Real.sqrt ((ssdPT df : ℝ) / ((df.length : ℝ) - 1))
          < (t : ℝ) - (meanPT df : ℝ) := by linarith
      have h2' : (3 * Real.sqrt ((ssdPT df : ℝ) / ((df.length : ℝ) - 1))) ^ 2
          < ((t : ℝ) - (meanPT df : ℝ)) ^ 2 :=
        pow_lt_pow_left₀ h1 (by positivity) (by norm_num)
      have h2 : (3 * Real.sqrt ((ssdPT df : ℝ) / ((df.length : ℝ) - 1))) ^ 2
          = 9 * ((ssdPT df : ℝ) / ((df.length : ℝ) - 1)) := by
        rw [mul_pow, hs2]
        norm_num
      have h3 : 9 * ((ssdPT df : ℝ) / ((df.length : ℝ) - 1))
          * ((df.length : ℝ) - 1)
          < ((t : ℝ) - (meanPT df : ℝ)) ^ 2 * ((df.length : ℝ) - 1) :=
        mul_lt_mul_of_pos_right (h2 ▸ h2') hden
    

      have h4 : 9 * ((ssdPT df : ℝ) / ((df.length : ℝ) - 1))
          * ((df.length : ℝ) - 1) = 9 * (ssdPT df : ℝ) := by
        rw [mul_assoc, hmul]
      have hgoal : 9 * (ssdPT df : ℝ)
          < ((t : ℝ) - (meanPT df : ℝ)) ^ 2 * ((df.length : ℝ) - 1) := by
        linarith
      exact_mod_cast hgoal

/-- C8: the report's anomaly list over a window of at least two events
contains a `high_processing_time` entry exactly for those windowed events
whose processing time exceeds the window's mean plus three (sample)
standard deviations, and a `low_success_rate` entry exactly for those rules
(in first-appearance order over the window) whose windowed success rate is
below 95 percent. -/
theorem report_anomalies_exact (data : List MetricEvent) (now window : ℚ)
    (h2 : 2 ≤ (windowEvents data now window).length) :
    (∀ (ts : ℚ) (rn : String) (v : ℚ),
      Anomaly.highProcessingTime ts rn v ∈ reportAnomalies data now window ↔
        ∃ e ∈ windowEvents data now window,
          e.timestamp = ts ∧ e.ruleName = rn ∧ e.processingTime = v ∧
          ((meanPT (windowEvents data now window) : ℝ)
              + 3 * Real.sqrt ((ssdPT (windowEvents data now window) : ℝ)
                  / (((windowEvents data now window).length : ℝ) - 1))
            < (v : ℝ))) ∧
    (∀ (rn : String) (v : ℚ),
      Anomaly.lowSuccessRate rn v ∈ reportAnomalies data now window ↔
        (rn ∈ firstUnique
            ((windowEvents data now window).map (fun e => e.ruleName)) ∧
         v = ruleSuccessRate (windowEvents data now window) rn ∧
         ruleSuccessRate (windowEvents data now window) rn < 95)) := by
  constructor
  · intro ts rn v
    unfold reportAnomalies detectAnomalies
    simp only [List.mem_append, List.mem_map, List.mem_filter]
    constructor
    · rintro (⟨e, ⟨heW, hht⟩, heq⟩ | ⟨r, hr, heq⟩)
      · obtain ⟨h1, hrn, hv⟩ := Anomaly.highProcessingTime.inj heq.symm
        refine ⟨e, heW, h1.symm, hrn.symm, hv.symm, ?_⟩
        have hreal := (highTime_iff_real _ h2 e.processingTime).mp hht
        rw [hv]
        exact hreal
      · cases heq
    · rintro ⟨e, heW, rfl, rfl, rfl, hreal⟩
      exact Or.inl ⟨e, ⟨heW, (highTime_iff_real _ h2 e.processingTime).mpr
        hreal⟩, rfl⟩
  · intro rn v
    unfold reportAnomalies detectAnomalies
    simp only [List.mem_append, List.mem_map, List.mem_filter,
      decide_eq_true_eq]
    constructor
    · rintro (⟨e, ⟨heW, hht⟩, heq⟩ | ⟨r, hr, heq⟩)
      · cases heq
      · obtain ⟨hrn, hv⟩ := Anomaly.lowSuccessRate.inj heq.symm
        subst hrn
        exact ⟨hr.1, hv, hr.2⟩
    · rintro ⟨hmem, rfl, hlow⟩
      exact Or.inr ⟨rn, ⟨hmem, hlow⟩, rfl⟩

/-- Witness for C8 at a concrete two-event history inside a ten-unit
window. -/
theorem report_anomalies_exact_witness :
    2 ≤ (windowEvents [MetricEvent.mk 0 "r" "d" 1 true,
          MetricEvent.mk 0 "r" "d" 2 false] 0 10).length ∧
    ((∀ (ts : ℚ) (rn : String) (v : ℚ),
      Anomaly.highProcessingTime ts rn v ∈ reportAnomalies
          [MetricEvent.mk 0 "r" "d" 1 true, MetricEvent.mk 0 "r" "d" 2 false]
          0 10 ↔
        ∃ e ∈ windowEvents
            [MetricEvent.mk 0 "r" "d" 1 true,
              MetricEvent.mk 0 "r" "d" 2 false] 0 10,
          e.timestamp = ts ∧ e.ruleName = rn ∧ e.processingTime = v ∧
          ((meanPT (windowEvents
                [MetricEvent.mk 0 "r" "d" 1 true,
                  MetricEvent.mk 0 "r" "d" 2 false] 0 10) : ℝ)
              + 3 * Real.sqrt ((ssdPT (windowEvents
                  [MetricEvent.mk 0 "r" "d" 1 true,
                    MetricEvent.mk 0 "r" "d" 2 false] 0 10) : ℝ)
                  / (((windowEvents
                      [MetricEvent.mk 0 "r" "d" 1 true,
                        MetricEvent.mk 0 "r" "d" 2 false] 0 10).length : ℝ)
                      - 1))
            < (v : ℝ))) ∧
    (∀ (rn : String) (v : ℚ),
      Anomaly.lowSuccessRate rn v ∈ reportAnomalies
          [MetricEvent.mk 0 "r" "d" 1 true, MetricEvent.mk 0 "r" "d" 2 false]
          0 10 ↔
        (rn ∈ firstUnique
            ((windowEvents
              [MetricEvent.mk 0 "r" "d" 1 true,
                MetricEvent.mk 0 "r" "d" 2 false] 0 10).map
              (fun e => e.ruleName)) ∧
         v = ruleSuccessRate (windowEvents
              [MetricEvent.mk 0 "r" "d" 1 true,
                MetricEvent.mk 0 "r" "d" 2 false] 0 10) rn ∧
         ruleSuccessRate (windowEvents
              [MetricEvent.mk 0 "r" "d" 1 true,
                MetricEvent.mk 0 "r" "d" 2 false] 0 10) rn < 95))) :=
  ⟨by
      simp only [windowEvents, List.filter]
      norm_num,
   report_anomalies_exact
     [MetricEvent.mk 0 "r" "d" 1 true, MetricEvent.mk 0 "r" "d" 2 false]
     0 10
     (by
      simp only [windowEvents, List.filter]
      norm_num)⟩

end LogRouterSpec
